import Mathlib

set_option autoImplicit false

/-!
Verification of the Docker Compose validator core (the `validate` function and
its depth-first cycle check) of this repository, as a shallow embedding.

The parsed YAML document is modelled by `JValue`, a tagged tree of mappings,
sequences, scalars, `null` and `undefined`, with JavaScript-style helpers
(`typeof`-object test, truthiness, `String(·)` coercion, property lookup).
Numbers are modelled as integers (no claim depends on fractional values).
Mappings are association lists in document order; JavaScript object keys are
unique, which matches first-occurrence lookup.

The two port regular expressions of the source are embedded as regular
expression syntax trees matched with Brzozowski derivatives.

The recursive cycle search `hasCycle` of the source is embedded with an
explicit fuel argument so that it is structurally recursive; the fuel used by
`validate` is `serviceNames.length + 1`, and a theorem below proves any larger
fuel gives the same result, so the fuel never restricts the semantics.
-/

inductive Severity where
  | error
  | warning
deriving Repr, DecidableEq

structure ValidationError where
  severity : Severity
  message : String
  path : Option String := none
deriving Repr, DecidableEq

/-- Parsed document values: mappings, sequences, scalars, `null`, `undefined`. -/
inductive JValue where
  | str : String → JValue
  | num : Int → JValue
  | bool : Bool → JValue
  | null : JValue
  | undefined : JValue
  | arr : List JValue → JValue
  | obj : List (String × JValue) → JValue

mutual

/-- JavaScript `String(v)` coercion. -/
def jstr : JValue → String
  | .str s => s
  | .num n => toString n
  | .bool b => if b then "true" else "false"
  | .null => "null"
  | .undefined => "undefined"
  | .arr xs => jstrJoin xs
  | .obj _ => "[object Object]"

/-- Array-to-string join with `,`, as in `Array.prototype.toString`:
`null` and `undefined` elements become the empty string. -/
def jstrJoin : List JValue → String
  | [] => ""
  | [x] => jstrItem x
  | x :: y :: xs => jstrItem x ++ "," ++ jstrJoin (y :: xs)

def jstrItem : JValue → String
  | .str s => s
  | .num n => toString n
  | .bool b => if b then "true" else "false"
  | .null => ""
  | .undefined => ""
  | .arr xs => jstrJoin xs
  | .obj _ => "[object Object]"

end

/-- `typeof v === 'object'` (true for plain objects, arrays and `null`). -/
def typeofObject : JValue → Bool
  | .obj _ => true
  | .arr _ => true
  | .null => true
  | _ => false

def isNullJ : JValue → Bool
  | .null => true
  | _ => false

def isArrayJ : JValue → Bool
  | .arr _ => true
  | _ => false

def isUndefinedJ : JValue → Bool
  | .undefined => true
  | _ => false

/-- JavaScript truthiness. -/
def truthy : JValue → Bool
  | .str s => s ≠ ""
  | .num n => n ≠ 0
  | .bool b => b
  | .null => false
  | .undefined => false
  | .arr _ => true
  | .obj _ => true

def lookupKvs : List (String × JValue) → String → JValue
  | [], _ => .undefined
  | (k', v) :: rest, k => if k' == k then v else lookupKvs rest k

/-- Property access `v[k]`: assoc lookup on objects, canonical numeric index
on arrays, `undefined` elsewhere (also models optional chaining, since
access on `null`/`undefined` is only performed where the source guards it). -/
def getProp : JValue → String → JValue
  | .obj kvs, k => lookupKvs kvs k
  | .arr xs, k =>
    match k.toNat? with
    | some i => if toString i == k then xs.getD i .undefined else .undefined
    | none => .undefined
  | _, _ => .undefined

/-- `Object.keys`: own keys of an object, index strings of an array. -/
def jsKeys : JValue → List String
  | .obj kvs => kvs.map Prod.fst
  | .arr xs => (List.range xs.length).map toString
  | _ => []

/-- `Object.entries`. -/
def jsEntries : JValue → List (String × JValue)
  | .obj kvs => kvs
  | .arr xs => xs.enum.map (fun p => (toString p.1, p.2))
  | _ => []

/-! Regular expressions, matched by Brzozowski derivatives. -/

inductive RE where
  | emp : RE
  | eps : RE
  | chr : (Char → Bool) → RE
  | alt : RE → RE → RE
  | cat : RE → RE → RE
  | star : RE → RE

def RE.nullable : RE → Bool
  | .emp => false
  | .eps => true
  | .chr _ => false
  | .alt a b => a.nullable || b.nullable
  | .cat a b => a.nullable && b.nullable
  | .star _ => true

def RE.deriv : RE → Char → RE
  | .emp, _ => .emp
  | .eps, _ => .emp
  | .chr p, c => if p c then .eps else .emp
  | .alt a b, c => .alt (a.deriv c) (b.deriv c)
  | .cat a b, c =>
    if a.nullable then .alt (.cat (a.deriv c) b) (b.deriv c)
    else .cat (a.deriv c) b
  | .star a, c => .cat (a.deriv c) (.star a)

def RE.rmatch (r : RE) (s : String) : Bool :=
  (s.toList.foldl RE.deriv r).nullable

def RE.opt (r : RE) : RE := .alt r .eps

def RE.plus (r : RE) : RE := .cat r (.star r)

/-- `\d` -/
def reDigit : RE := .chr Char.isDigit

/-- `[:-]` -/
def reSep : RE := .chr (fun c => c == ':' || c == '-')

/-- `\w` -/
def reWord : RE := .chr (fun c => c.isAlphanum || c == '_')

def reColon : RE := .chr (· == ':')

def reSlash : RE := .chr (· == '/')

/-- `/^\d+([:-]\d+)?(\/\w+)?$/` -/
def portRe1 : RE :=
  .cat reDigit.plus (.cat (RE.opt (.cat reSep reDigit.plus))
    (RE.opt (.cat reSlash reWord.plus)))

/-- `/^\d+([:-]\d+)?:\d+([:-]\d+)?(\/\w+)?$/` -/
def portRe2 : RE :=
  .cat reDigit.plus (.cat (RE.opt (.cat reSep reDigit.plus))
    (.cat reColon (.cat reDigit.plus
      (.cat (RE.opt (.cat reSep reDigit.plus))
        (RE.opt (.cat reSlash reWord.plus))))))

/-! The fixed key sets and the diagnostic constructors of the source. -/

def validRestartPolicies : List String := ["no", "always", "on-failure", "unless-stopped"]

def validServiceKeys : List String :=
  ["image", "build", "command", "entrypoint", "container_name", "depends_on",
   "environment", "env_file", "expose", "ports", "volumes", "networks",
   "restart", "deploy", "labels", "logging", "healthcheck", "configs",
   "secrets", "working_dir", "user", "hostname", "domainname", "dns",
   "dns_search", "extra_hosts", "links", "external_links", "stdin_open",
   "tty", "cap_add", "cap_drop", "devices", "privileged", "read_only",
   "security_opt", "tmpfs", "sysctls", "ulimits", "stop_signal",
   "stop_grace_period", "init", "platform", "profiles", "pull_policy",
   "mem_limit", "memswap_limit", "mem_reservation", "cpus", "cpu_shares",
   "cpu_quota", "cpu_period", "cpuset", "shm_size", "pid", "ipc",
   "extends", "scale", "runtime", "isolation", "network_mode",
   "group_add", "cgroup_parent", "credential_spec", "oom_score_adj",
   "storage_opt", "annotations"]

def validTopLevelKeys : List String :=
  ["version", "services", "networks", "volumes", "configs", "secrets", "name"]

def docShapeErr : ValidationError :=
  ⟨.error, "Document must be a YAML mapping (object).", none⟩

def unknownTopWarn (k : String) : ValidationError :=
  ⟨.warning, "Unknown top-level key \"" ++ k ++ "\".", some k⟩

def versionWarn : ValidationError :=
  ⟨.warning, "The \"version\" field is obsolete in Docker Compose v2+. It can be safely removed.",
   some "version"⟩

def missingServicesErr : ValidationError :=
  ⟨.error, "Missing required \"services\" key.", none⟩

def servicesShapeErr : ValidationError :=
  ⟨.error, "\"services\" must be a mapping of service definitions.", none⟩

def svcMappingErr (name : String) : ValidationError :=
  ⟨.error, "Service \"" ++ name ++ "\" must be a mapping.", some ("services." ++ name)⟩

def imageBuildErr (name : String) : ValidationError :=
  ⟨.error, "Service \"" ++ name ++ "\" must have either \"image\" or \"build\".",
   some ("services." ++ name)⟩

def unknownSvcKeyWarn (name key : String) : ValidationError :=
  ⟨.warning, "Unknown key \"" ++ key ++ "\" in service \"" ++ name ++ "\".",
   some ("services." ++ name ++ "." ++ key)⟩

def restartErr (name restart : String) : ValidationError :=
  ⟨.error, "Invalid restart policy \"" ++ restart ++ "\" in \"" ++ name ++ "\". Valid: "
     ++ String.intercalate ", " validRestartPolicies ++ ".",
   some ("services." ++ name ++ ".restart")⟩

def portWarn (name p : String) : ValidationError :=
  ⟨.warning, "Unusual port format \"" ++ p ++ "\" in \"" ++ name
     ++ "\". Expected format: \"host:container\" or \"container\".",
   some ("services." ++ name ++ ".ports")⟩

def undefDepErr (name dep : String) : ValidationError :=
  ⟨.error, "Service \"" ++ name ++ "\" depends on \"" ++ dep ++ "\", which is not defined.",
   some ("services." ++ name ++ ".depends_on")⟩

def selfDepErr (name : String) : ValidationError :=
  ⟨.error, "Service \"" ++ name ++ "\" depends on itself.",
   some ("services." ++ name ++ ".depends_on")⟩

def envErr (name : String) : ValidationError :=
  ⟨.error, "\"environment\" in \"" ++ name ++ "\" must be a list or mapping.",
   some ("services." ++ name ++ ".environment")⟩

def volWarn (name vol : String) : ValidationError :=
  ⟨.warning, "Volume \"" ++ vol ++ "\" used in \"" ++ name
     ++ "\" is not defined in top-level \"volumes\".",
   some ("services." ++ name ++ ".volumes")⟩

def cycleErr (node dep : String) : ValidationError :=
  ⟨.error, "Circular dependency detected involving \"" ++ node ++ "\" and \"" ++ dep ++ "\".",
   none⟩

/-! Per-service checks, in the source's emission order. -/

/-- `depends_on` normalisation: a sequence is stringified element-wise, a
mapping contributes its keys, anything else is empty. -/
def normDeps : JValue → List String
  | .arr xs => xs.map jstr
  | .obj kvs => kvs.map Prod.fst
  | _ => []

/-- The two independent checks on a single `depends_on` entry:
undefined reference first, then self-dependency. -/
def depDiags (serviceNames : List String) (name dep : String) : List ValidationError :=
  (if serviceNames.contains dep then [] else [undefDepErr name dep])
    ++ (if dep == name then [selfDepErr name] else [])

/-- The substring before the first `:` of the restart value, that is
`restart.split(':')[0]` of the source. -/
def basePolicyOf (restart : String) : String :=
  String.mk (restart.toList.takeWhile (fun c => c ≠ ':'))

def restartDiags (name : String) (v : JValue) : List ValidationError :=
  match v with
  | .undefined => []
  | v =>
    let restart := jstr v
    if validRestartPolicies.contains (basePolicyOf restart) then []
    else [restartErr name restart]

def portEntryDiags (name : String) (p : JValue) : List ValidationError :=
  match p with
  | .str s => if portRe1.rmatch s || portRe2.rmatch s then [] else [portWarn name s]
  | .num n =>
    let s := toString n
    if portRe1.rmatch s || portRe2.rmatch s then [] else [portWarn name s]
  | _ => []

def portsDiags (name : String) (ports : List JValue) : List ValidationError :=
  ports.flatMap (portEntryDiags name)

def envDiags (name : String) (v : JValue) : List ValidationError :=
  match v with
  | .undefined => []
  | .null => []
  | .arr _ => []
  | .obj _ => []
  | _ => [envErr name]

/-- `s.startsWith(pre)`, over character lists so that it evaluates in the
kernel. -/
def strStartsWith (pre s : String) : Bool :=
  pre.toList.isPrefixOf s.toList

/-- `s.includes(c)` / `String.contains`, over character lists. -/
def strContainsChar (s : String) (c : Char) : Bool :=
  s.toList.contains c

def volEntryDiags (rootVal : JValue) (name : String) (vol : JValue) : List ValidationError :=
  match vol with
  | .str s =>
    if !(strContainsChar s ':') && !(strStartsWith "/" s) && !(strStartsWith "." s) then
      let topVolumes := getProp rootVal "volumes"
      if truthy topVolumes && typeofObject topVolumes && !((jsKeys topVolumes).contains s) then
        [volWarn name s]
      else []
    else []
  | _ => []

def volDiags (rootVal : JValue) (name : String) (vols : List JValue) : List ValidationError :=
  vols.flatMap (volEntryDiags rootVal name)

/-- All per-service diagnostics for one `[name, def]` entry of `services`. -/
def checkService (rootVal : JValue) (serviceNames : List String)
    (entry : String × JValue) : List ValidationError :=
  let name := entry.1
  let defv := entry.2
  if !(typeofObject defv) || isNullJ defv then [svcMappingErr name]
  else
    let svc := defv
    (if !(truthy (getProp svc "image")) && !(truthy (getProp svc "build"))
      then [imageBuildErr name] else [])
    ++ (jsKeys svc).filterMap (fun key =>
        if validServiceKeys.contains key then none else some (unknownSvcKeyWarn name key))
    ++ restartDiags name (getProp svc "restart")
    ++ (match getProp svc "ports" with
        | .arr ps => portsDiags name ps
        | _ => [])
    ++ (if truthy (getProp svc "depends_on")
        then (normDeps (getProp svc "depends_on")).flatMap (depDiags serviceNames name)
        else [])
    ++ envDiags name (getProp svc "environment")
    ++ (match getProp svc "volumes" with
        | .arr vs => volDiags rootVal name vs
        | _ => [])

/-! The cycle check: shared `visited`/`inStack` sets, depth-first search. -/

structure DfsState where
  visited : List String
  inStack : List String
  errors : List ValidationError
deriving Repr, DecidableEq

/-- The dependency edges explored from `node` by `hasCycle`. -/
def depsOf (services : JValue) (node : String) : List String :=
  let svc := getProp services node
  let d := getProp svc "depends_on"
  if truthy d then normDeps d else []

/-- The `for (const dep of deps)` loop body of `hasCycle`: the recursive call
is passed in as `hc` (it is `hasCycle` at one smaller fuel). On a `true`
return from `hc` it records the cycle error naming `node` and `dep`, pops
`node` from the stack and propagates `true`. -/
def dfsLoop (hc : String → DfsState → Bool × DfsState) (serviceNames : List String)
    (node : String) : List String → DfsState → Bool × DfsState
  | [], s => (false, { s with inStack := s.inStack.erase node })
  | dep :: rest, s =>
    if serviceNames.contains dep then
      match hc dep s with
      | (true, s') =>
        (true, { s' with inStack := s'.inStack.erase node,
                         errors := s'.errors ++ [cycleErr node dep] })
      | (false, s') => dfsLoop hc serviceNames node rest s'
    else dfsLoop hc serviceNames node rest s

/-- `hasCycle` of the source, with fuel bounding the recursion depth.
A node already on the stack closes a cycle; a closed node is skipped;
otherwise the node is marked visited and on-stack and its edges explored. -/
def hasCycle (services : JValue) (serviceNames : List String) :
    Nat → String → DfsState → Bool × DfsState
  | 0 => fun _ s => (false, s)
  | fuel + 1 => fun node s =>
    if s.inStack.contains node then (true, s)
    else if s.visited.contains node then (false, s)
    else
      dfsLoop (hasCycle services serviceNames fuel) serviceNames node
        (depsOf services node)
        { s with visited := node :: s.visited, inStack := node :: s.inStack }

/-- The outer `for (const name of serviceNames) hasCycle(name)` loop. -/
def dfsAll (services : JValue) (serviceNames : List String) (fuel : Nat) : DfsState :=
  serviceNames.foldl (fun s n => (hasCycle services serviceNames fuel n s).2)
    ⟨[], [], []⟩

def dfsAllErrors (services : JValue) (serviceNames : List String) (fuel : Nat) :
    List ValidationError :=
  (dfsAll services serviceNames fuel).errors

/-- Step 2 of `validate`: one warning per unknown top-level key, in root
iteration order. -/
def unknownTopDiags (kvs : List (String × JValue)) : List ValidationError :=
  (kvs.map Prod.fst).filterMap (fun key =>
    if validTopLevelKeys.contains key then none else some (unknownTopWarn key))

/-- Steps 2–3 of `validate`: unknown-top-level-key warnings followed by the
obsolete-`version` warning. -/
def topLevelDiags (kvs : List (String × JValue)) : List ValidationError :=
  unknownTopDiags kvs
    ++ (if isUndefinedJ (getProp (.obj kvs) "version") then [] else [versionWarn])

/-- `validate(doc)` of the source. A non-object, `null` or array root fails
immediately; then unknown top-level keys, the obsolete `version` warning, the
required `services` key, the `services` shape (note: `typeof` lets arrays
through), per-service checks, and the cycle search. The DFS fuel
`serviceNames.length + 1` bounds the recursion depth; by
`dfsAll_fuel_adequate` below any larger fuel computes the same result. -/
def validate (doc : JValue) : List ValidationError :=
  match doc with
  | .obj kvs =>
    let rootVal : JValue := .obj kvs
    let pre := topLevelDiags kvs
    let svcVal := getProp rootVal "services"
    if !(truthy svcVal) then pre ++ [missingServicesErr]
    else if !(typeofObject svcVal) || isNullJ svcVal then pre ++ [servicesShapeErr]
    else
      let entries := jsEntries svcVal
      let serviceNames := entries.map Prod.fst
      pre ++ entries.flatMap (checkService rootVal serviceNames)
        ++ dfsAllErrors svcVal serviceNames (serviceNames.length + 1)
  | _ => [docShapeErr]

/-! Concrete documents used by the claims. -/

/-- `services: {A: {image, depends_on: [B]}, B: {image, depends_on: [A]}}` -/
def cycleDoc : JValue :=
  .obj [("services", .obj
    [("A", .obj [("image", .str "x"), ("depends_on", .arr [.str "B"])]),
     ("B", .obj [("image", .str "y"), ("depends_on", .arr [.str "A"])])])]

/-- `services: {A: dep B, B: dep C, C}` — an acyclic chain. -/
def chainDoc : JValue :=
  .obj [("services", .obj
    [("A", .obj [("image", .str "x"), ("depends_on", .arr [.str "B"])]),
     ("B", .obj [("image", .str "y"), ("depends_on", .arr [.str "C"])]),
     ("C", .obj [("image", .str "z")])])]

/-- A service that depends on itself. -/
def selfDoc : JValue :=
  .obj [("services", .obj
    [("A", .obj [("image", .str "x"), ("depends_on", .arr [.str "A"])])])]

/-- A two-node cycle also reachable from a third service `C`. -/
def multiEntryDoc : JValue :=
  .obj [("services", .obj
    [("A", .obj [("image", .str "x"), ("depends_on", .arr [.str "B"])]),
     ("B", .obj [("image", .str "y"), ("depends_on", .arr [.str "A"])]),
     ("C", .obj [("image", .str "z"), ("depends_on", .arr [.str "A"])])])]

def isCycleMsg (e : ValidationError) : Bool :=
  strStartsWith "Circular dependency detected" e.message

def onFailureDoc : JValue :=
  .obj [("services", .obj
    [("a", .obj [("image", .str "x"), ("restart", .str "on-failure:3")])])]

def sometimesDoc : JValue :=
  .obj [("services", .obj
    [("a", .obj [("image", .str "x"), ("restart", .str "sometimes")])])]

/-- `ports: ["8080:80", "abc:80", {target: 80}]` — a valid short form, an
unusual string, and a long-form mapping entry. -/
def portDoc : JValue :=
  .obj [("services", .obj
    [("a", .obj [("image", .str "x"),
                 ("ports", .arr [.str "8080:80", .str "abc:80",
                                 .obj [("target", .num 80)]])])])]

/-- An error pushed by the cycle search, as a (node, dep) edge record. -/
def mkCyc (p : String × String) : ValidationError := cycleErr p.1 p.2

/-! ### The DFS recursion measure and fuel adequacy

`hasCycle` in the source recurses without an explicit bound; each expansion
adds a fresh name to `visited`, so the recursion depth is bounded by the
number of service names not yet visited. The embedding makes that bound a
fuel argument; the lemmas here show the fuel used by `validate` is enough. -/

/-- Number of service names not yet visited: the DFS termination measure. -/
def remaining (serviceNames visited : List String) : Nat :=
  (serviceNames.filter (fun n => !(visited.contains n))).length

theorem length_filter_le_filter {α : Type} (l : List α) (p q : α → Bool)
    (h : ∀ a, p a = true → q a = true) :
    (l.filter p).length ≤ (l.filter q).length := by
  induction l with
  | nil => simp
  | cons a t ih =>
    by_cases hp : p a = true
    · simp [List.filter_cons, hp, h a hp]; omega
    · simp only [List.filter_cons, Bool.not_eq_true] at hp ⊢
      rw [hp]
      cases hq : q a <;> simp <;> omega

theorem length_filter_lt_filter {α : Type} (l : List α) (p q : α → Bool)
    (h : ∀ a, p a = true → q a = true) (x : α) (hx : x ∈ l)
    (hpx : p x = false) (hqx : q x = true) :
    (l.filter p).length < (l.filter q).length := by
  induction l with
  | nil => cases hx
  | cons a t ih =>
    rcases List.mem_cons.1 hx with rfl | hmem
    · simp [List.filter_cons, hpx, hqx]
      exact Nat.lt_succ_of_le (length_filter_le_filter t p q h)
    · by_cases hp : p a = true
      · simp [List.filter_cons, hp, h a hp]
        exact ih hmem
      · simp only [List.filter_cons, Bool.not_eq_true] at hp ⊢
        rw [hp]
        have := ih hmem
        cases hq : q a <;> simp <;> omega

theorem remaining_mono (names v v' : List String)
    (h : ∀ x, x ∈ v → x ∈ v') :
    remaining names v' ≤ remaining names v := by
  apply length_filter_le_filter
  intro a ha
  simp only [Bool.not_eq_true'] at ha ⊢
  by_contra hc
  simp only [Bool.not_eq_false] at hc
  have hmem : a ∈ v := by simpa using hc
  have hmem' : v'.contains a = true := by simpa using h a hmem
  rw [hmem'] at ha
  cases ha

theorem remaining_le_length (names v : List String) :
    remaining names v ≤ names.length :=
  List.length_filter_le _ names

theorem dfsLoop_visited_mono (hc : String → DfsState → Bool × DfsState)
    (serviceNames : List String) (node : String)
    (hhc : ∀ d s, ∀ x ∈ s.visited, x ∈ ((hc d s).2).visited) :
    ∀ deps s, ∀ x ∈ s.visited, x ∈ ((dfsLoop hc serviceNames node deps s).2).visited := by
  intro deps
  induction deps with
  | nil => intro s x hx; simpa [dfsLoop] using hx
  | cons d rest ih =>
    intro s x hx
    simp only [dfsLoop]
    by_cases hd : serviceNames.contains d = true
    · rw [if_pos hd]
      cases hres : hc d s with
      | mk b s' =>
        have hx' : x ∈ s'.visited := by
          have := hhc d s x hx
          rw [hres] at this
          exact this
        cases b
        · exact ih s' x hx'
        · simpa using hx'
    · rw [if_neg hd]
      exact ih s x hx

theorem hasCycle_visited_mono (services : JValue) (serviceNames : List String) :
    ∀ fuel node s, ∀ x ∈ s.visited,
      x ∈ ((hasCycle services serviceNames fuel node s).2).visited := by
  intro fuel
  induction fuel with
  | zero => intro node s x hx; simpa [hasCycle] using hx
  | succ f ih =>
    intro node s x hx
    simp only [hasCycle]
    by_cases h1 : s.inStack.contains node = true
    · rw [if_pos h1]; exact hx
    · rw [if_neg h1]
      by_cases h2 : s.visited.contains node = true
      · rw [if_pos h2]; exact hx
      · rw [if_neg h2]
        exact dfsLoop_visited_mono _ _ _ ih _ _ x (List.mem_cons_of_mem _ hx)

theorem remaining_pos (names v : List String) (node : String)
    (hn : node ∈ names) (hv : v.contains node = false) :
    1 ≤ remaining names v := by
  have hv' : node ∉ v := by simpa using hv
  have hmem : node ∈ names.filter (fun n => !(v.contains n)) :=
    List.mem_filter.2 ⟨hn, by simp [hv']⟩
  exact List.length_pos_of_mem hmem

theorem remaining_cons_lt (names v : List String) (node : String)
    (hn : node ∈ names) (hv : v.contains node = false) :
    remaining names (node :: v) < remaining names v := by
  have hv' : node ∉ v := by simpa using hv
  refine length_filter_lt_filter names _ _ ?himp node hn ?hp ?hq
  · intro a ha
    simp only [List.contains_cons, Bool.not_eq_true', Bool.or_eq_false_iff] at ha
    have : a ∉ v := by simpa using ha.2
    simp [this]
  · simp [List.contains_cons]
  · simp [hv']

/-- Unfolding equation for `hasCycle` at positive fuel. -/
theorem hasCycle_succ (services : JValue) (serviceNames : List String)
    (fuel : Nat) (node : String) (s : DfsState) :
    hasCycle services serviceNames (fuel+1) node s
      = if s.inStack.contains node then (true, s)
        else if s.visited.contains node then (false, s)
        else dfsLoop (hasCycle services serviceNames fuel) serviceNames node
          (depsOf services node)
          { s with visited := node :: s.visited, inStack := node :: s.inStack } := rfl

theorem dfsLoop_fuel_congr (hc₁ hc₂ : String → DfsState → Bool × DfsState)
    (serviceNames : List String) (node : String) (B : Nat)
    (hmono : ∀ d s, ∀ x ∈ s.visited, x ∈ ((hc₂ d s).2).visited)
    (heq : ∀ d s, d ∈ serviceNames → remaining serviceNames s.visited ≤ B → hc₁ d s = hc₂ d s) :
    ∀ deps s, remaining serviceNames s.visited ≤ B →
      dfsLoop hc₁ serviceNames node deps s = dfsLoop hc₂ serviceNames node deps s := by
  intro deps
  induction deps with
  | nil => intro s _; rfl
  | cons d rest ih =>
    intro s hs
    simp only [dfsLoop]
    by_cases hd : serviceNames.contains d = true
    · rw [if_pos hd, if_pos hd]
      have hdm : d ∈ serviceNames := by simpa using hd
      rw [heq d s hdm hs]
      cases hres : hc₂ d s with
      | mk b s' =>
        cases b
        · refine ih s' (le_trans (remaining_mono _ _ _ ?_) hs)
          intro x hx
          have := hmono d s x hx
          rw [hres] at this
          exact this
        · rfl
    · rw [if_neg hd, if_neg hd]
      exact ih s hs

theorem hasCycle_fuel_step (services : JValue) (serviceNames : List String) :
    ∀ f node s, node ∈ serviceNames → remaining serviceNames s.visited < f →
      hasCycle services serviceNames (f+1) node s
        = hasCycle services serviceNames f node s := by
  intro f
  induction f with
  | zero => intro node s _ h; exact absurd h (Nat.not_lt_zero _)
  | succ f ih =>
    intro node s hn hlt
    rw [hasCycle_succ, hasCycle_succ]
    by_cases h1 : s.inStack.contains node = true
    · rw [if_pos h1, if_pos h1]
    · rw [if_neg h1, if_neg h1]
      by_cases h2 : s.visited.contains node = true
      · rw [if_pos h2, if_pos h2]
      · rw [if_neg h2, if_neg h2]
        have h2' : s.visited.contains node = false := by
          simp only [Bool.not_eq_true] at h2; exact h2
        have hrem1 : 1 ≤ remaining serviceNames s.visited :=
          remaining_pos _ _ _ hn h2'
        have hdec : remaining serviceNames (node :: s.visited)
            < remaining serviceNames s.visited :=
          remaining_cons_lt _ _ _ hn h2'
        refine dfsLoop_fuel_congr _ _ _ _ (f-1)
          (hasCycle_visited_mono services serviceNames f) ?_ _ _ ?_
        · intro d s' hd hB
          exact ih d s' hd (by omega)
        · show remaining serviceNames (node :: s.visited) ≤ f - 1
          omega

theorem hasCycle_fuel_adequate (services : JValue) (serviceNames : List String)
    (k : Nat) :
    ∀ f node s, node ∈ serviceNames → remaining serviceNames s.visited < f →
      hasCycle services serviceNames (f + k) node s
        = hasCycle services serviceNames f node s := by
  induction k with
  | zero => intro f node s _ _; rfl
  | succ k ih =>
    intro f node s hn hf
    have h1 : f + (k+1) = (f + k) + 1 := by omega
    rw [h1, hasCycle_fuel_step services serviceNames (f+k) node s hn (by omega)]
    exact ih f node s hn hf

/-- The fuel `serviceNames.length + 1` used by `validate` is adequate: any
extra fuel computes the same DFS result, so the bounded embedding agrees with
the unbounded recursion of the source. -/
theorem dfsAll_fuel_adequate (services : JValue) (serviceNames : List String)
    (k : Nat) :
    dfsAll services serviceNames (serviceNames.length + 1 + k)
      = dfsAll services serviceNames (serviceNames.length + 1) := by
  unfold dfsAll
  have key : ∀ n ∈ serviceNames, ∀ s : DfsState,
      hasCycle services serviceNames (serviceNames.length + 1 + k) n s
        = hasCycle services serviceNames (serviceNames.length + 1) n s := by
    intro n hn s
    exact hasCycle_fuel_adequate services serviceNames k (serviceNames.length + 1) n s hn
      (lt_of_le_of_lt (remaining_le_length _ _) (Nat.lt_succ_self _))
  have fold : ∀ (l : List String), (∀ x ∈ l, x ∈ serviceNames) → ∀ s : DfsState,
      l.foldl (fun s n => (hasCycle services serviceNames (serviceNames.length + 1 + k) n s).2) s
        = l.foldl (fun s n => (hasCycle services serviceNames (serviceNames.length + 1) n s).2) s := by
    intro l
    induction l with
    | nil => intro _ _; rfl
    | cons a t ih =>
      intro hl s
      simp only [List.foldl_cons]
      rw [key a (hl a (List.mem_cons_self a t)) s]
      exact ih (fun x hx => hl x (List.mem_cons_of_mem a hx)) _
  exact fold serviceNames (fun x hx => hx) _

/-! ### What the cycle search appends to the error list

Each error pushed by `hasCycle` is `cycleErr node dep` for the node whose
expansion detected it; a node is expanded at most once per `validate` call
(the `visited` set is shared across the outer loop), so the first-named
service of the pushed errors never repeats. -/

theorem dfsLoop_pushes (hc : String → DfsState → Bool × DfsState)
    (serviceNames : List String) (node : String)
    (hmono : ∀ d s, ∀ x ∈ s.visited, x ∈ ((hc d s).2).visited)
    (hcp : ∀ d s, d ∈ serviceNames → ∃ ps : List (String × String),
      ((hc d s).2).errors = s.errors ++ ps.map mkCyc
      ∧ (ps.map Prod.fst).Nodup
      ∧ (∀ p ∈ ps, p.1 ∉ s.visited ∧ p.1 ∈ ((hc d s).2).visited
          ∧ p.1 ∈ serviceNames ∧ p.2 ∈ serviceNames)
      ∧ ((hc d s).1 = false → ps = [])) :
    ∀ deps s, node ∈ s.visited → node ∈ serviceNames →
      ∃ ps : List (String × String),
        ((dfsLoop hc serviceNames node deps s).2).errors = s.errors ++ ps.map mkCyc
        ∧ (ps.map Prod.fst).Nodup
        ∧ (∀ p ∈ ps, (p.1 = node ∨ p.1 ∉ s.visited)
            ∧ p.1 ∈ ((dfsLoop hc serviceNames node deps s).2).visited
            ∧ p.1 ∈ serviceNames ∧ p.2 ∈ serviceNames)
        ∧ ((dfsLoop hc serviceNames node deps s).1 = false → ps = []) := by
  intro deps
  induction deps with
  | nil =>
    intro s hnv hnn
    exact ⟨[], by simp [dfsLoop], by simp, by simp, fun _ => rfl⟩
  | cons d rest ih =>
    intro s hnv hnn
    simp only [dfsLoop]
    by_cases hd : serviceNames.contains d = true
    · rw [if_pos hd]
      have hdm : d ∈ serviceNames := by simpa using hd
      obtain ⟨psI, hIerr, hInd, hImem, hIfalse⟩ := hcp d s hdm
      cases hres : hc d s with
      | mk b s' =>
        rw [hres] at hIerr hImem hIfalse
        have hmono' : ∀ x ∈ s.visited, x ∈ s'.visited := by
          intro x hx
          have := hmono d s x hx
          rw [hres] at this
          exact this
        cases b
        · -- the recursive call found nothing: no errors were pushed there
          have hnil : psI = [] := hIfalse rfl
          subst hnil
          simp only [List.map_nil, List.append_nil] at hIerr
          obtain ⟨ps, herr, hnd, hmem, hfalse⟩ := ih s' (hmono' node hnv) hnn
          refine ⟨ps, by rw [herr, hIerr], hnd, ?_, hfalse⟩
          intro p hp
          obtain ⟨hor, hvis, hn1, hn2⟩ := hmem p hp
          refine ⟨?_, hvis, hn1, hn2⟩
          rcases hor with h | h
          · exact Or.inl h
          · exact Or.inr (fun hin => h (hmono' _ hin))
        · -- the recursive call closed a cycle: push the edge error and stop
          refine ⟨psI ++ [(node, d)], ?_, ?_, ?_, ?_⟩
          · simp only [List.map_append, List.map_cons, List.map_nil]
            rw [← List.append_assoc, ← hIerr]
            rfl
          · simp only [List.map_append, List.map_cons, List.map_nil]
            refine List.Nodup.append hInd (List.nodup_singleton _) ?_
            intro x hx hx'
            have hx1 : x = node := by simpa using hx'
            subst hx1
            obtain ⟨p, hp, hp1⟩ := List.mem_map.1 hx
            exact (hImem p hp).1 (hp1 ▸ hnv)
          · intro p hp
            rcases List.mem_append.1 hp with hp | hp
            · obtain ⟨hnot, hvis, hn1, hn2⟩ := hImem p hp
              exact ⟨Or.inr hnot, hvis, hn1, hn2⟩
            · have hp1 : p = (node, d) := by simpa using hp
              subst hp1
              exact ⟨Or.inl rfl, hmono' node hnv, hnn, hdm⟩
          · intro h
            cases h
    · rw [if_neg hd]
      exact ih s hnv hnn

theorem hasCycle_pushes (services : JValue) (serviceNames : List String) :
    ∀ fuel node s, node ∈ serviceNames →
      ∃ ps : List (String × String),
        ((hasCycle services serviceNames fuel node s).2).errors = s.errors ++ ps.map mkCyc
        ∧ (ps.map Prod.fst).Nodup
        ∧ (∀ p ∈ ps, p.1 ∉ s.visited
            ∧ p.1 ∈ ((hasCycle services serviceNames fuel node s).2).visited
            ∧ p.1 ∈ serviceNames ∧ p.2 ∈ serviceNames)
        ∧ ((hasCycle services serviceNames fuel node s).1 = false → ps = []) := by
  intro fuel
  induction fuel with
  | zero =>
    intro node s _
    exact ⟨[], by simp [hasCycle], by simp, by simp, fun _ => rfl⟩
  | succ f ih =>
    intro node s hn
    rw [hasCycle_succ]
    by_cases h1 : s.inStack.contains node = true
    · rw [if_pos h1]
      exact ⟨[], by simp, by simp, by simp, fun _ => rfl⟩
    · rw [if_neg h1]
      by_cases h2 : s.visited.contains node = true
      · rw [if_pos h2]
        exact ⟨[], by simp, by simp, by simp, fun _ => rfl⟩
      · rw [if_neg h2]
        obtain ⟨ps, herr, hnd, hmem, hfalse⟩ :=
          dfsLoop_pushes (hasCycle services serviceNames f) serviceNames node
            (hasCycle_visited_mono services serviceNames f)
            (fun d' s' hd' => ih d' s' hd')
            (depsOf services node)
            { s with visited := node :: s.visited, inStack := node :: s.inStack }
            (List.mem_cons_self _ _) hn
        refine ⟨ps, herr, hnd, ?_, hfalse⟩
        intro p hp
        obtain ⟨hor, hvis, hn1, hn2⟩ := hmem p hp
        refine ⟨?_, hvis, hn1, hn2⟩
        rcases hor with h | h
        · rw [h]
          simpa using h2
        · intro hin
          exact h (List.mem_cons_of_mem _ hin)

theorem dfsAll_pushes (services : JValue) (serviceNames : List String) (fuel : Nat) :
    ∃ ps : List (String × String),
      dfsAllErrors services serviceNames fuel = ps.map mkCyc
      ∧ (ps.map Prod.fst).Nodup
      ∧ ∀ p ∈ ps, p.1 ∈ serviceNames ∧ p.2 ∈ serviceNames := by
  have fold : ∀ (l : List String), (∀ x ∈ l, x ∈ serviceNames) → ∀ s : DfsState,
      (∃ ps : List (String × String), s.errors = ps.map mkCyc
        ∧ (ps.map Prod.fst).Nodup
        ∧ ∀ p ∈ ps, p.1 ∈ s.visited ∧ p.1 ∈ serviceNames ∧ p.2 ∈ serviceNames) →
      ∃ ps : List (String × String),
        (l.foldl (fun s n => (hasCycle services serviceNames fuel n s).2) s).errors
          = ps.map mkCyc
        ∧ (ps.map Prod.fst).Nodup
        ∧ ∀ p ∈ ps,
            p.1 ∈ (l.foldl (fun s n => (hasCycle services serviceNames fuel n s).2) s).visited
            ∧ p.1 ∈ serviceNames ∧ p.2 ∈ serviceNames := by
    intro l
    induction l with
    | nil => intro _ s hs; exact hs
    | cons a t ih =>
      intro hl s hs
      obtain ⟨ps, herr, hnd, hmem⟩ := hs
      obtain ⟨psN, herrN, hndN, hmemN, _⟩ :=
        hasCycle_pushes services serviceNames fuel a s (hl a (List.mem_cons_self a t))
      simp only [List.foldl_cons]
      apply ih (fun x hx => hl x (List.mem_cons_of_mem a hx))
      refine ⟨ps ++ psN, ?_, ?_, ?_⟩
      · rw [herrN, herr, List.map_append]
      · rw [List.map_append]
        refine List.Nodup.append hnd hndN ?_
        intro x hx hx'
        obtain ⟨p, hp, hp1⟩ := List.mem_map.1 hx
        obtain ⟨q, hq, hq1⟩ := List.mem_map.1 hx'
        exact (hmemN q hq).1 (hq1 ▸ hp1 ▸ (hmem p hp).1)
      · intro p hp
        rcases List.mem_append.1 hp with hp | hp
        · obtain ⟨hv, hn1, hn2⟩ := hmem p hp
          exact ⟨hasCycle_visited_mono services serviceNames fuel a s p.1 hv, hn1, hn2⟩
        · obtain ⟨_, hv, hn1, hn2⟩ := hmemN p hp
          exact ⟨hv, hn1, hn2⟩
  obtain ⟨ps, herr, hnd, hmem⟩ :=
    fold serviceNames (fun x hx => hx) ⟨[], [], []⟩ ⟨[], rfl, List.nodup_nil, by simp⟩
  exact ⟨ps, herr, hnd, fun p hp => ⟨(hmem p hp).2.1, (hmem p hp).2.2⟩⟩

/-! ### Helper lemmas about the top-level prefix diagnostics. -/

theorem filterMap_if_eq_filter_map {α β : Type} (p : α → Bool) (f : α → β)
    (l : List α) :
    l.filterMap (fun a => if p a then none else some (f a))
      = (l.filter (fun a => !(p a))).map f := by
  induction l with
  | nil => rfl
  | cons a t ih =>
    cases h : p a with
    | true => simp [List.filterMap_cons, List.filter_cons, h, ih]
    | false => simp [List.filterMap_cons, List.filter_cons, h, ih]

theorem unknownTopDiags_eq (kvs : List (String × JValue)) :
    unknownTopDiags kvs
      = ((kvs.map Prod.fst).filter (fun x => !(validTopLevelKeys.contains x))).map
          unknownTopWarn :=
  filterMap_if_eq_filter_map (fun key => validTopLevelKeys.contains key)
    unknownTopWarn (kvs.map Prod.fst)

theorem topLevelDiags_warnings (kvs : List (String × JValue)) :
    ∀ e ∈ topLevelDiags kvs, e.severity = .warning := by
  intro e he
  unfold topLevelDiags at he
  rcases List.mem_append.1 he with h | h
  · rw [unknownTopDiags_eq] at h
    obtain ⟨k, _, hk⟩ := List.mem_map.1 h
    rw [← hk]
    rfl
  · by_cases hv : isUndefinedJ (getProp (.obj kvs) "version") = true
    · rw [if_pos hv] at h
      cases h
    · rw [if_neg hv] at h
      have : e = versionWarn := by simpa using h
      rw [this]
      rfl

/-! ### The claims. -/

/-- Claim C1: during the cycle search, when the loop of `hasCycle` examines an
edge from `node` into a service `dep` that is currently on the DFS stack, it
appends exactly one error diagnostic to the error list, naming the two
adjacent nodes of that closing edge (only the edge, not the full cycle), and
that diagnostic has severity `error` and carries no path. -/
theorem c1_closing_edge (services : JValue) (serviceNames : List String)
    (fuel : Nat) (node dep : String) (rest : List String) (s : DfsState)
    (hstack : s.inStack.contains dep = true)
    (hdef : serviceNames.contains dep = true) :
    dfsLoop (hasCycle services serviceNames (fuel + 1)) serviceNames node
        (dep :: rest) s
      = (true, { s with inStack := s.inStack.erase node,
                        errors := s.errors ++ [cycleErr node dep] })
    ∧ (cycleErr node dep).severity = .error
    ∧ (cycleErr node dep).path = none
    ∧ (cycleErr node dep).message
        = "Circular dependency detected involving \"" ++ node ++ "\" and \""
            ++ dep ++ "\"." := by
  refine ⟨?_, rfl, rfl, rfl⟩
  simp only [dfsLoop]
  rw [if_pos hdef, hasCycle_succ, if_pos hstack]

/-- Witness for C1 at a concrete mid-search state: node `A` examines the edge
into `B`, which is on the stack. -/
theorem c1_closing_edge_witness :
    dfsLoop (hasCycle (.obj []) ["B"] (0 + 1)) ["B"] "A" ("B" :: [])
        ⟨["A"], ["B"], []⟩
      = (true, { (⟨["A"], ["B"], []⟩ : DfsState) with
                  inStack := (⟨["A"], ["B"], []⟩ : DfsState).inStack.erase "A",
                  errors := (⟨["A"], ["B"], []⟩ : DfsState).errors
                    ++ [cycleErr "A" "B"] })
    ∧ (cycleErr "A" "B").severity = .error
    ∧ (cycleErr "A" "B").path = none
    ∧ (cycleErr "A" "B").message
        = "Circular dependency detected involving \"" ++ "A" ++ "\" and \""
            ++ "B" ++ "\"." :=
  c1_closing_edge (.obj []) ["B"] 0 "A" "B" [] ⟨["A"], ["B"], []⟩
    (by decide) (by decide)

/-- Claim C2: the two-service mutual cycle `A→B→A` yields at least one
error-severity circular-dependency diagnostic, and the acyclic chain
`A→B→C` yields none. -/
theorem c2_cycle_tests :
    ((validate cycleDoc).any (fun e => e.severity == .error && isCycleMsg e)) = true
    ∧ ((validate chainDoc).all (fun e => !(isCycleMsg e))) = true := by
  constructor
  · decide
  · decide

/-- Claim C3 counterexample: `validate null` returns the root-shape error
("Document must be a YAML mapping"), not the missing-required-services error
that a mapping lacking `services` yields — the two error paths differ, so the
claim is false as stated. -/
theorem c3_null_counterexample :
    validate .null = [docShapeErr]
    ∧ validate (.obj []) = [missingServicesErr]
    ∧ docShapeErr ≠ missingServicesErr := by
  refine ⟨by decide, by decide, by decide⟩

/-- Claim C3 (amended): `validate` applied to `null` or `undefined` does not
crash and returns the same single root-shape error diagnostic that any
non-mapping root yields (`typeof null === 'object'` is caught by the explicit
`=== null` test; `undefined` fails the `typeof` test), rather than reaching
the missing-`services` error path. -/
theorem c3_null_amended :
    validate .null = [docShapeErr] ∧ validate .undefined = [docShapeErr] := by
  refine ⟨by decide, by decide⟩

/-- Claim C4 counterexample: an array value for `services` is present, truthy
and not a mapping, yet `validate` emits no diagnostic at all — `Array.isArray`
is not consulted in the `services` shape check, so `typeof === 'object'` lets
sequences through and they are iterated as index-keyed mappings (here the
empty array yields an empty result). The claim's "exactly one error ... for a
sequence/array" is therefore false. -/
theorem c4_services_shape_counterexample :
    validate (.obj [("services", .arr [])]) = []
    ∧ truthy (.arr []) = true
    ∧ typeofObject (.arr []) = true
    ∧ isArrayJ (.arr []) = true := by
  refine ⟨by decide, rfl, rfl, rfl⟩

/-- Claim C4 (amended): for every document whose `services` value is present,
truthy and fails the `typeof === 'object'` test (a non-empty string, non-zero
number, or `true` — but not an array, which passes the check and is iterated
as an index-keyed mapping), `validate` returns the single services-shape
error as its final diagnostic, preceded only by warnings, and emits no
per-service or cycle diagnostics. -/
theorem c4_services_shape_amended (kvs : List (String × JValue))
    (ht : truthy (getProp (.obj kvs) "services") = true)
    (ho : typeofObject (getProp (.obj kvs) "services") = false) :
    ∃ ws, validate (.obj kvs) = ws ++ [servicesShapeErr]
      ∧ ∀ e ∈ ws, e.severity = .warning := by
  refine ⟨topLevelDiags kvs, ?_, topLevelDiags_warnings kvs⟩
  have hnull : isNullJ (getProp (.obj kvs) "services") = false := by
    cases h : getProp (.obj kvs) "services" <;> simp_all [isNullJ, typeofObject]
  simp only [validate]
  rw [ht, ho, hnull]
  rfl

/-- Witness for C4 (amended) at `services: "x"`. -/
theorem c4_services_shape_amended_witness :
    ∃ ws, validate (.obj [("services", .str "x")]) = ws ++ [servicesShapeErr]
      ∧ ∀ e ∈ ws, e.severity = .warning :=
  c4_services_shape_amended [("services", .str "x")] rfl rfl

/-- Claim C5: a `depends_on` entry equal to the service's own name produces
exactly one self-dependency error and no undefined-reference error, because
the service's own name is always in the set of defined service names. End to
end, the self-loop document yields that self-dependency error (followed by
the step-7 cycle diagnostic) and no undefined-reference error. -/
theorem c5_self_dependency (serviceNames : List String) (name : String)
    (h : name ∈ serviceNames) :
    depDiags serviceNames name name = [selfDepErr name]
    ∧ validate selfDoc = [selfDepErr "A", cycleErr "A" "A"] := by
  constructor
  · simp [depDiags, h]
  · decide

/-- Witness for C5 with service `A` depending on itself. -/
theorem c5_self_dependency_witness :
    depDiags ["A"] "A" "A" = [selfDepErr "A"]
    ∧ validate selfDoc = [selfDepErr "A", cycleErr "A" "A"] :=
  c5_self_dependency ["A"] "A" (by decide)

/-- Claim C6: for a present `restart` value, an error-severity diagnostic is
emitted iff the substring of its stringification before the first `:` is not
one of the four valid policies; `"on-failure:3"` passes, `"sometimes"` fails
with a message listing the valid set. -/
theorem c6_restart_policy (name : String) (v : JValue)
    (h : isUndefinedJ v = false) :
    (restartDiags name v = [] ↔
      validRestartPolicies.contains (basePolicyOf (jstr v)) = true)
    ∧ (∀ e ∈ restartDiags name v, e.severity = .error)
    ∧ restartDiags name (.str "on-failure:3") = []
    ∧ restartDiags name (.str "sometimes") = [restartErr name "sometimes"]
    ∧ (restartErr "a" "sometimes").message
        = "Invalid restart policy \"sometimes\" in \"a\". Valid: no, always, on-failure, unless-stopped."
    ∧ validate onFailureDoc = []
    ∧ validate sometimesDoc = [restartErr "a" "sometimes"] := by
  have key : restartDiags name v
      = (if validRestartPolicies.contains (basePolicyOf (jstr v)) then []
         else [restartErr name (jstr v)]) := by
    cases v <;> simp_all [restartDiags, isUndefinedJ]
  refine ⟨?_, ?_, rfl, rfl, by decide, by decide, by decide⟩
  · rw [key]
    cases hc : validRestartPolicies.contains (basePolicyOf (jstr v)) <;> simp [hc]
  · rw [key]
    cases hc : validRestartPolicies.contains (basePolicyOf (jstr v)) with
    | true => simp
    | false =>
      intro e he
      have he' : e = restartErr name (jstr v) := by simpa using he
      rw [he']
      rfl

/-- Witness for C6: `"on-failure:3"` is accepted. -/
theorem c6_restart_policy_witness :
    restartDiags "a" (.str "on-failure:3") = [] ↔
      validRestartPolicies.contains (basePolicyOf (jstr (.str "on-failure:3"))) = true :=
  (c6_restart_policy "a" (.str "on-failure:3") rfl).1

/-- Claim C7: for a sequence-valued `ports`, each string or number entry
whose stringification matches neither port regular expression contributes
exactly one warning-severity diagnostic (never an error) with path
`services.<name>.ports`; mapping entries are skipped silently; `"8080:80"`
passes and `"abc:80"` warns — end to end on `portDoc`. -/
theorem c7_ports (name : String) (ports : List JValue) :
    (∀ e ∈ portsDiags name ports,
        e.severity = .warning ∧ e.path = some ("services." ++ name ++ ".ports"))
    ∧ (∀ p ∈ ports, (portEntryDiags name p).length ≤ 1)
    ∧ (∀ kvs : List (String × JValue), portEntryDiags name (.obj kvs) = [])
    ∧ portEntryDiags name (.str "8080:80") = []
    ∧ portEntryDiags name (.str "abc:80") = [portWarn name "abc:80"]
    ∧ validate portDoc = [portWarn "a" "abc:80"] := by
  have entry_shape : ∀ q : JValue, ∀ e ∈ portEntryDiags name q,
      ∃ s, e = portWarn name s := by
    intro q e he
    cases q with
    | str s =>
      simp only [portEntryDiags] at he
      split at he
      · cases he
      · exact ⟨s, by simpa using he⟩
    | num n =>
      simp only [portEntryDiags] at he
      split at he
      · cases he
      · exact ⟨toString n, by simpa using he⟩
    | bool b => exact absurd he (by simp [portEntryDiags])
    | null => exact absurd he (by simp [portEntryDiags])
    | undefined => exact absurd he (by simp [portEntryDiags])
    | arr xs => exact absurd he (by simp [portEntryDiags])
    | obj kvs => exact absurd he (by simp [portEntryDiags])
  refine ⟨?_, ?_, fun kvs => rfl, rfl, rfl, by decide⟩
  · intro e he
    obtain ⟨p, hp, hpe⟩ := List.mem_flatMap.1 he
    obtain ⟨s, rfl⟩ := entry_shape p e hpe
    exact ⟨rfl, rfl⟩
  · intro p _
    cases p <;> simp only [portEntryDiags] <;> first
      | (split <;> simp)
      | simp

/-- Witness for C7: the mapping (long-form) port entry is skipped silently. -/
theorem c7_ports_witness :
    portEntryDiags "w" (.obj [("target", .num 80)]) = [] :=
  (c7_ports "w" []).2.2.1 [("target", .num 80)]

/-- Claim C8 counterexample: the mapping `{foo: 1, version: "3"}` has exactly
one unknown top-level key and no `services` key, yet `validate` returns three
diagnostics, not two — the obsolete-`version` warning is emitted between the
unknown-key warning and the missing-services error. -/
theorem c8_order_counterexample :
    validate (.obj [("foo", .num 1), ("version", .str "3")])
      = [unknownTopWarn "foo", versionWarn, missingServicesErr]
    ∧ [unknownTopWarn "foo", versionWarn, missingServicesErr].length ≠ 2 := by
  refine ⟨by decide, by decide⟩

/-- Claim C8 (amended): for a mapping with exactly one unknown top-level key,
no `version` key and no `services` key, `validate` returns exactly the
unknown-key warning followed by the missing-required-services error and
stops; with no unknown key (and no `version`), exactly the one error. -/
theorem c8_order_amended :
    (∀ (kvs : List (String × JValue)) (k : String),
      (kvs.map Prod.fst).filter (fun x => !(validTopLevelKeys.contains x)) = [k] →
      getProp (.obj kvs) "version" = .undefined →
      getProp (.obj kvs) "services" = .undefined →
      validate (.obj kvs) = [unknownTopWarn k, missingServicesErr])
    ∧ (∀ (kvs : List (String × JValue)),
      (kvs.map Prod.fst).filter (fun x => !(validTopLevelKeys.contains x)) = [] →
      getProp (.obj kvs) "version" = .undefined →
      getProp (.obj kvs) "services" = .undefined →
      validate (.obj kvs) = [missingServicesErr]) := by
  have pre_eq : ∀ (kvs : List (String × JValue)),
      getProp (.obj kvs) "version" = .undefined →
      topLevelDiags kvs
        = ((kvs.map Prod.fst).filter (fun x => !(validTopLevelKeys.contains x))).map
            unknownTopWarn := by
    intro kvs hv
    unfold topLevelDiags
    rw [unknownTopDiags_eq, hv]
    simp [isUndefinedJ]
  constructor
  · intro kvs k hf hv hs
    simp only [validate]
    rw [hs, pre_eq kvs hv, hf]
    simp [truthy]
  · intro kvs hf hv hs
    simp only [validate]
    rw [hs, pre_eq kvs hv, hf]
    simp [truthy]

/-- Witness for C8 (amended) at `{foo: 1}`. -/
theorem c8_order_amended_witness :
    validate (.obj [("foo", .num 1)]) = [unknownTopWarn "foo", missingServicesErr] :=
  c8_order_amended.1 [("foo", .num 1)] "foo" (by decide) rfl rfl

/-- Claim C9: `validate` is a total function on all parsed input values — it
returns an ordered list of diagnostics whose severity is always `error` or
`warning` — and the bounded DFS embedding never cuts the search short: any
fuel beyond `serviceNames.length + 1` computes the same result, so the
recursion of the source terminates within the modelled bound and no failure
path exists. -/
theorem c9_total_safe :
    (∀ (doc : JValue), ∀ e ∈ validate doc,
        e.severity = .error ∨ e.severity = .warning)
    ∧ (∀ (services : JValue) (serviceNames : List String) (k : Nat),
        dfsAll services serviceNames (serviceNames.length + 1 + k)
          = dfsAll services serviceNames (serviceNames.length + 1)) := by
  constructor
  · intro doc e _
    cases h : e.severity with
    | error => exact Or.inl rfl
    | warning => exact Or.inr rfl
  · exact dfsAll_fuel_adequate

/-- Witness for C9: the root-shape diagnostic produced for `null`, and fuel
independence at a concrete instance. -/
theorem c9_total_safe_witness :
    (docShapeErr.severity = .error ∨ docShapeErr.severity = .warning)
    ∧ dfsAll (.obj []) ["A"] ((["A"] : List String).length + 1 + 1)
        = dfsAll (.obj []) ["A"] ((["A"] : List String).length + 1) :=
  ⟨c9_total_safe.1 .null docShapeErr (by decide),
   c9_total_safe.2 (.obj []) ["A"] 1⟩

/-- Claim C10: within one call, the DFS expands each service at most once
(the `visited` set is shared across the outer loop), so the cycle-phase
diagnostics are exactly a list of `cycleErr` records whose first-named
services are pairwise distinct — at most one circular-dependency error is
attributed to each service — and both named services are defined. End to end,
the cycle `A↔B` that is also reachable from `C` is reported only from its own
exploration and not re-reported when the search is re-entered at `C`. -/
theorem c10_dfs_once :
    (∀ (services : JValue) (serviceNames : List String) (fuel : Nat),
      ∃ ps : List (String × String),
        dfsAllErrors services serviceNames fuel = ps.map mkCyc
        ∧ (ps.map Prod.fst).Nodup
        ∧ ∀ p ∈ ps, p.1 ∈ serviceNames ∧ p.2 ∈ serviceNames)
    ∧ validate multiEntryDoc = [cycleErr "B" "A", cycleErr "A" "B"] :=
  ⟨dfsAll_pushes, by decide⟩

/-- Witness for C10 at a concrete instance of the general statement. -/
theorem c10_dfs_once_witness :
    ∃ ps : List (String × String),
      dfsAllErrors (.obj []) ["A"] 2 = ps.map mkCyc
      ∧ (ps.map Prod.fst).Nodup
      ∧ ∀ p ∈ ps, p.1 ∈ ["A"] ∧ p.2 ∈ ["A"] :=
  c10_dfs_once.1 (.obj []) ["A"] 2
